import Mathlib

/-!
Verification of the TMST entanglement phase-diagram program (`main.py`).

The numeric core of the program is three pure formulas evaluated over a
2-D grid. We embed them over the real numbers: the Python floats are
modelled as exact reals, and the few places where IEEE special values
(infinity, NaN) matter are modelled separately by an explicit `FVal`
type mirroring IEEE arithmetic on the operations the code performs.
-/

namespace TMST

open Real

/-! ### Configuration constants (`main.py`, USER CONFIGURATION block) -/

/-- Mode frequency, natural units (`OMEGA = 1.0`). -/
def OMEGA : ℝ := 1.0

/-- Minimum temperature sample (`TEMP_MIN = 0.01`). -/
def TEMP_MIN : ℝ := 0.01

/-- Maximum temperature for the plotted range (`TEMP_MAX = 3.0`). -/
def TEMP_MAX : ℝ := 3.0

/-- Maximum squeezing parameter (`SQUEEZING_MAX = 2.0`). -/
def SQUEEZING_MAX : ℝ := 2.0

/-- Points per axis (`GRID_RESOLUTION = 500`). -/
def GRID_RESOLUTION : ℕ := 500

/-! ### Core formulas (`bose_einstein`, `critical_squeezing`, `log_negativity`) -/

/-- `bose_einstein(temp, omega=OMEGA)` from `main.py`:
`n = 1.0 / (np.exp(omega / temp) - 1.0)` followed by `np.nan_to_num(n, nan=0.0)`.
At `temp = 0` the numpy code evaluates, under IEEE semantics with warnings
suppressed, `1/(exp(+inf) - 1) = 1/(+inf) = 0.0` (so `nan_to_num` is a no-op
there); the branch below records that outcome in exact real arithmetic.
The IEEE evaluation itself is modelled separately by `bose_einstein_np`,
and `bose_einstein_agrees_with_ieee` proves the two agree on finite inputs. -/
noncomputable def bose_einstein (temp : ℝ) (omega : ℝ := OMEGA) : ℝ :=
  if temp = 0 then 0 else 1 / (Real.exp (omega / temp) - 1)

/-- `critical_squeezing(n_bar)` from `main.py`: `0.5 * np.log(2 * n_bar + 1)`. -/
noncomputable def critical_squeezing (n_bar : ℝ) : ℝ :=
  0.5 * Real.log (2 * n_bar + 1)

/-- The local `nu_minus` of `log_negativity` in `main.py`:
`(n_bar + 0.5) * np.exp(-2 * r)`. -/
noncomputable def nu_minus (r n_bar : ℝ) : ℝ :=
  (n_bar + 0.5) * Real.exp (-2 * r)

/-- The local `val` of `log_negativity` in `main.py`: `-np.log2(2 * nu_minus)`. -/
noncomputable def log_negativity_val (r n_bar : ℝ) : ℝ :=
  -Real.logb 2 (2 * nu_minus r n_bar)

/-- `log_negativity(r, n_bar)` from `main.py`: `np.maximum(0, val)`. -/
noncomputable def log_negativity (r n_bar : ℝ) : ℝ :=
  max 0 (log_negativity_val r n_bar)

/-- The log-negativity formula transcribed from the words of §4.3 of the spec:
nu_minus = (occupation + 0.5) × exp(−2 × squeezing), result
max(0, −log base 2(2 × nu_minus)). Used to compare spec against source. -/
noncomputable def log_negativity_spec (squeezing occupation : ℝ) : ℝ :=
  max 0 (-Real.logb 2 (2 * ((occupation + 0.5) * Real.exp (-(2 * squeezing)))))

/-! ### Helper lemmas on the core formulas -/

lemma bose_einstein_of_pos {temp : ℝ} (h : 0 < temp) (omega : ℝ) :
    bose_einstein temp omega = 1 / (Real.exp (omega / temp) - 1) := by
  rw [bose_einstein, if_neg (ne_of_gt h)]

lemma bose_einstein_pos {temp : ℝ} (h : 0 < temp) {omega : ℝ} (hw : 0 < omega) :
    0 < bose_einstein temp omega := by
  rw [bose_einstein_of_pos h]
  have h1 : 1 < Real.exp (omega / temp) := by
    rw [show (1 : ℝ) = Real.exp 0 from (Real.exp_zero).symm]
    exact Real.exp_lt_exp.mpr (div_pos hw h)
  exact one_div_pos.mpr (by linarith)

/-- Closed form for the raw (pre-floor) log-negativity, valid whenever
`2 * n_bar + 1 > 0`. -/
lemma log_negativity_val_eq {n_bar : ℝ} (hn : 0 < 2 * n_bar + 1) (r : ℝ) :
    log_negativity_val r n_bar = (2 * r - Real.log (2 * n_bar + 1)) / Real.log 2 := by
  have harg : 2 * nu_minus r n_bar = (2 * n_bar + 1) * Real.exp (-2 * r) := by
    rw [nu_minus]; ring
  have hne : (2 * n_bar + 1) ≠ 0 := ne_of_gt hn
  have hexp : Real.exp (-2 * r) ≠ 0 := ne_of_gt (Real.exp_pos _)
  rw [log_negativity_val, harg, Real.logb, Real.log_mul hne hexp, Real.log_exp]
  ring

lemma log_two_pos : 0 < Real.log 2 := Real.log_pos (by norm_num)

/-- The floor at 0 is reached exactly on and below the critical threshold. -/
lemma log_negativity_eq_zero_iff {n_bar : ℝ} (hn : 0 < 2 * n_bar + 1) (r : ℝ) :
    log_negativity r n_bar = 0 ↔ r ≤ critical_squeezing n_bar := by
  have hval := log_negativity_val_eq hn r
  rw [log_negativity, critical_squeezing]
  constructor
  · intro h
    have hle : log_negativity_val r n_bar ≤ 0 := by
      by_contra hgt
      push_neg at hgt
      rw [max_eq_right (le_of_lt hgt)] at h
      linarith
    rw [hval, div_nonpos_iff] at hle
    rcases hle with ⟨h1, h2⟩ | ⟨h1, h2⟩
    · linarith [log_two_pos]
    · linarith
  · intro h
    have hle : log_negativity_val r n_bar ≤ 0 := by
      rw [hval]
      apply div_nonpos_of_nonpos_of_nonneg _ (le_of_lt log_two_pos)
      linarith
    exact max_eq_left hle

/-- Strict positivity strictly above the threshold. -/
lemma log_negativity_pos_iff {n_bar : ℝ} (hn : 0 < 2 * n_bar + 1) (r : ℝ) :
    0 < log_negativity r n_bar ↔ critical_squeezing n_bar < r := by
  have hval := log_negativity_val_eq hn r
  rw [log_negativity, critical_squeezing]
  constructor
  · intro h
    by_contra hle
    push_neg at hle
    have : log_negativity_val r n_bar ≤ 0 := by
      rw [hval]
      apply div_nonpos_of_nonpos_of_nonneg _ (le_of_lt log_two_pos)
      linarith
    rw [max_eq_left this] at h
    exact lt_irrefl 0 h
  · intro h
    have hpos : 0 < log_negativity_val r n_bar := by
      rw [hval]
      apply div_pos _ log_two_pos
      linarith
    rw [max_eq_right (le_of_lt hpos)]
    exact hpos

/-! ### Claim theorems: formulas -/

/-- C2: for every squeezing `r` and occupation `n_bar`, `log_negativity r n_bar`
equals the spec formula `max(0, -log2(2 * nu_minus))` with
`nu_minus = (n_bar + 0.5) * exp(-2 * r)`, and the returned value is never
negative (floor invariant). -/
theorem log_negativity_matches_spec_and_nonneg (r n_bar : ℝ) :
    log_negativity r n_bar = log_negativity_spec r n_bar ∧
    0 ≤ log_negativity r n_bar := by
  constructor
  · rw [log_negativity, log_negativity_spec, log_negativity_val, nu_minus]
    norm_num
  · exact le_max_left 0 _

/-- C4: for occupations `0 ≤ n1 ≤ n2`, `critical_squeezing` returns
`0.5 * ln(2 * n + 1)`, is nonnegative, is 0 exactly at occupation 0, and is
monotonically non-decreasing. -/
theorem critical_squeezing_props (n1 n2 : ℝ) (h1 : 0 ≤ n1) (h12 : n1 ≤ n2) :
    critical_squeezing n1 = 0.5 * Real.log (2 * n1 + 1) ∧
    0 ≤ critical_squeezing n1 ∧
    critical_squeezing 0 = 0 ∧
    (critical_squeezing n1 = 0 ↔ n1 = 0) ∧
    critical_squeezing n1 ≤ critical_squeezing n2 := by
  have key : ∀ n : ℝ, 0 ≤ n → 0 ≤ Real.log (2 * n + 1) := by
    intro n hn
    apply Real.log_nonneg
    linarith
  refine ⟨rfl, ?_, ?_, ?_, ?_⟩
  · rw [critical_squeezing]
    have := key n1 h1
    linarith
  · rw [critical_squeezing]
    norm_num
  · rw [critical_squeezing]
    constructor
    · intro h
      have hlog : Real.log (2 * n1 + 1) = 0 := by linarith
      have harg : 2 * n1 + 1 = 1 := by
        by_contra hne
        have h1lt : 1 < 2 * n1 + 1 := by
          rcases lt_or_eq_of_le (by linarith : (1 : ℝ) ≤ 2 * n1 + 1) with h | h
          · exact h
          · exact absurd h.symm hne
        have := Real.log_pos h1lt
        linarith
      linarith
    · intro h
      rw [h]
      norm_num
  · rw [critical_squeezing, critical_squeezing]
    have hmono : Real.log (2 * n1 + 1) ≤ Real.log (2 * n2 + 1) :=
      Real.log_le_log (by linarith) (by linarith)
    linarith

/-- Witness for C4 at the concrete occupations 0 and 1. -/
theorem critical_squeezing_props_witness :
    critical_squeezing 0 = 0.5 * Real.log (2 * 0 + 1) ∧
    0 ≤ critical_squeezing 0 ∧
    critical_squeezing 0 = 0 ∧
    (critical_squeezing 0 = 0 ↔ (0 : ℝ) = 0) ∧
    critical_squeezing 0 ≤ critical_squeezing 1 :=
  critical_squeezing_props 0 1 (by norm_num) (by norm_num)

/-- C1: threshold equivalence. For every temperature `T > 0` and squeezing
`r ≥ 0`, `log_negativity r (bose_einstein T)` is exactly 0 when
`r ≤ critical_squeezing (bose_einstein T)` and strictly positive when
`r > critical_squeezing (bose_einstein T)`. In the exact real model the
equivalence is exact, which is stronger than the 1e-9 tolerance the spec
allows. -/
theorem threshold_equivalence (T r : ℝ) (hT : 0 < T) (hr : 0 ≤ r) :
    (r ≤ critical_squeezing (bose_einstein T) → log_negativity r (bose_einstein T) = 0) ∧
    (critical_squeezing (bose_einstein T) < r → 0 < log_negativity r (bose_einstein T)) := by
  have hn : 0 < 2 * bose_einstein T + 1 := by
    have hw : (0 : ℝ) < OMEGA := by norm_num [OMEGA]
    have := bose_einstein_pos hT hw
    linarith
  exact ⟨fun h => (log_negativity_eq_zero_iff hn r).mpr h,
         fun h => (log_negativity_pos_iff hn r).mpr h⟩

/-- Witness for C1 at the concrete pair `T = 1`, `r = 0`. -/
theorem threshold_equivalence_witness :
    ((0 : ℝ) ≤ critical_squeezing (bose_einstein 1) → log_negativity 0 (bose_einstein 1) = 0) ∧
    (critical_squeezing (bose_einstein 1) < 0 → 0 < log_negativity 0 (bose_einstein 1)) :=
  threshold_equivalence 1 0 (by norm_num) (by norm_num)

/-- C8: separate monotonicity of `log_negativity`. For fixed occupation
`n_bar ≥ 0` it is non-decreasing in the squeezing argument, and for fixed
squeezing it is non-increasing in the occupation argument; the floor at 0
preserves both. -/
theorem log_negativity_monotone (r r2 n_bar n2 : ℝ)
    (hn : 0 ≤ n_bar) (hr : r ≤ r2) (hn2 : n_bar ≤ n2) :
    log_negativity r n_bar ≤ log_negativity r2 n_bar ∧
    log_negativity r n2 ≤ log_negativity r n_bar := by
  have h1 : 0 < 2 * n_bar + 1 := by linarith
  have h2 : 0 < 2 * n2 + 1 := by linarith
  constructor
  · rw [log_negativity, log_negativity,
        log_negativity_val_eq h1 r, log_negativity_val_eq h1 r2]
    apply max_le_max le_rfl
    apply div_le_div_of_nonneg_right _ log_two_pos.le
    linarith
  · rw [log_negativity, log_negativity,
        log_negativity_val_eq h1 r, log_negativity_val_eq h2 r]
    apply max_le_max le_rfl
    apply div_le_div_of_nonneg_right _ log_two_pos.le
    have := Real.log_le_log h1 (by linarith : 2 * n_bar + 1 ≤ 2 * n2 + 1)
    linarith

/-- Witness for C8 at `n_bar = 0`, `r` from 0 to 1, `n` from 0 to 1. -/
theorem log_negativity_monotone_witness :
    log_negativity 0 0 ≤ log_negativity 1 0 ∧
    log_negativity 0 1 ≤ log_negativity 0 0 :=
  log_negativity_monotone 0 1 0 1 (by norm_num) (by norm_num) (by norm_num)

/-! ### IEEE-double model of `bose_einstein`

The numpy code does not branch on `temp == 0`: it evaluates the raw formula
under suppressed floating-point warnings and then applies `np.nan_to_num`.
To reason about that mechanism we model the IEEE special values explicitly:
`finite x` stands for a finite double of value `x` (rounding, overflow and
underflow of finite intermediates are not modelled; they play no role on the
inputs the claims are about), plus the two infinities and NaN. -/
inductive FVal where
  | finite (x : ℝ)
  | pinf
  | ninf
  | nan

/-- IEEE division on `FVal` (zero treated as +0, as numpy produces here). -/
noncomputable def fdiv : FVal → FVal → FVal
  | FVal.finite x, FVal.finite y =>
      if y = 0 then
        (if x = 0 then FVal.nan else if 0 < x then FVal.pinf else FVal.ninf)
      else FVal.finite (x / y)
  | FVal.finite _, FVal.pinf => FVal.finite 0
  | FVal.finite _, FVal.ninf => FVal.finite 0
  | FVal.pinf, FVal.finite y => if 0 ≤ y then FVal.pinf else FVal.ninf
  | FVal.ninf, FVal.finite y => if 0 ≤ y then FVal.ninf else FVal.pinf
  | _, _ => FVal.nan

/-- IEEE exponential on `FVal` (`exp(+inf) = +inf`, `exp(-inf) = 0`). The
finite case is the exact real exponential, with no rounding of the result to
binary64; it is used only on paths whose behaviour goes through the special
values. The rounding of the exponential, which is observable for inputs
extremely close to 0, is modelled separately by `fexp_d` below. -/
noncomputable def fexp : FVal → FVal
  | FVal.finite x => FVal.finite (Real.exp x)
  | FVal.pinf => FVal.pinf
  | FVal.ninf => FVal.finite 0
  | FVal.nan => FVal.nan

/-- IEEE subtraction on `FVal`. -/
noncomputable def fsub : FVal → FVal → FVal
  | FVal.finite x, FVal.finite y => FVal.finite (x - y)
  | FVal.pinf, FVal.finite _ => FVal.pinf
  | FVal.ninf, FVal.finite _ => FVal.ninf
  | FVal.finite _, FVal.pinf => FVal.ninf
  | FVal.finite _, FVal.ninf => FVal.pinf
  | FVal.pinf, FVal.ninf => FVal.pinf
  | FVal.ninf, FVal.pinf => FVal.ninf
  | _, _ => FVal.nan

/-- Largest finite double, the value numpy substitutes for `+inf` in
`np.nan_to_num` when only `nan=0.0` is overridden. -/
def MAXFLOAT : ℝ := 1.7976931348623157e308

/-- `np.nan_to_num(v, nan=0.0)`: NaN becomes 0, the infinities become the
extreme finite doubles, finite values pass through. -/
noncomputable def nan_to_num : FVal → FVal
  | FVal.nan => FVal.finite 0
  | FVal.pinf => FVal.finite MAXFLOAT
  | FVal.ninf => FVal.finite (-MAXFLOAT)
  | FVal.finite x => FVal.finite x

/-- The raw formula line of `bose_einstein` in `main.py`:
`1.0 / (np.exp(omega / temp) - 1.0)` under IEEE semantics. -/
noncomputable def bose_einstein_raw (temp : FVal) : FVal :=
  fdiv (FVal.finite 1) (fsub (fexp (fdiv (FVal.finite OMEGA) temp)) (FVal.finite 1))

/-- Whole numpy `bose_einstein`: raw formula then `np.nan_to_num(n, nan=0.0)`. -/
noncomputable def bose_einstein_np (temp : FVal) : FVal :=
  nan_to_num (bose_einstein_raw temp)

/-- On every finite input the IEEE evaluation agrees with the exact real
model `bose_einstein`. -/
lemma bose_einstein_agrees_with_ieee (t : ℝ) :
    bose_einstein_np (FVal.finite t) = FVal.finite (bose_einstein t) := by
  by_cases ht : t = 0
  · subst ht
    rw [bose_einstein_np, bose_einstein_raw, fdiv]
    rw [if_pos rfl, if_neg (by norm_num [OMEGA]), if_pos (by norm_num [OMEGA])]
    rw [fexp, fsub, fdiv, nan_to_num, bose_einstein, if_pos rfl]
  · have hformula : bose_einstein t = 1 / (Real.exp (OMEGA / t) - 1) := by
      rw [bose_einstein, if_neg ht]
    have hexp_ne : Real.exp (OMEGA / t) - 1 ≠ 0 := by
      intro h
      have h1 : Real.exp (OMEGA / t) = 1 := by linarith
      rw [Real.exp_eq_one_iff] at h1
      have : OMEGA ≠ 0 := by norm_num [OMEGA]
      exact this ((div_eq_zero_iff.mp h1).resolve_right ht)
    rw [bose_einstein_np, bose_einstein_raw, fdiv, if_neg ht, fexp, fsub, fdiv,
        if_neg hexp_ne, nan_to_num, hformula]

/-- C3 (counterexample to the mechanism part): at temperature exactly 0 the
raw Bose-Einstein formula IS evaluated, and under IEEE semantics it already
yields the finite value 0 (`1/(exp(+inf) - 1) = 1/(+inf) = 0`); the full
function returns exactly what the raw formula returns, so no special-casing
of the input takes place. -/
theorem bose_einstein_raw_evaluates_at_zero :
    bose_einstein_raw (FVal.finite 0) = FVal.finite 0 ∧
    bose_einstein_np (FVal.finite 0) = bose_einstein_raw (FVal.finite 0) := by
  have hraw : bose_einstein_raw (FVal.finite 0) = FVal.finite 0 := by
    rw [bose_einstein_raw, fdiv]
    rw [if_pos rfl, if_neg (by norm_num [OMEGA]), if_pos (by norm_num [OMEGA])]
    rw [fexp, fsub, fdiv]
  refine ⟨hraw, ?_⟩
  rw [bose_einstein_np, hraw, nan_to_num]

/-- C3 (amended): at temperature exactly 0 the thermal occupation function
returns exactly 0, producing neither NaN nor an arithmetic error; the value
arises from IEEE evaluation of the raw formula (followed by a no-op generic
NaN replacement), not from an explicit special case on the input. -/
theorem bose_einstein_zero_behavior :
    bose_einstein_np (FVal.finite 0) = FVal.finite 0 ∧ bose_einstein 0 = 0 := by
  constructor
  · rw [bose_einstein_agrees_with_ieee, bose_einstein, if_pos rfl]
  · rw [bose_einstein, if_pos rfl]

/-! ### Rounded model of the exponential

The exact model above treats `np.exp` on finite values as the real
exponential. For extremely small arguments that idealization is observable:
`np.exp(x)` for `|x|` below half an ulp of 1 returns exactly 1.0 after
rounding to binary64, so for negative temperatures of astronomically large
magnitude the source computes `1/(1.0 - 1.0) = +inf` and `nan_to_num` turns
that into the positive largest finite double. The model below adds that
rounding step. -/

/-- Round a positive real to 53 significant binary digits: with
`e = ⌊log2 x⌋` the result is the nearest multiple of `2^(e - 52)`, ties
rounding up (IEEE binary64 rounds ties to even, but no tie arises on any
path proved below; overflow and subnormal thresholds are likewise not
modelled, as no value on these paths reaches them). -/
noncomputable def roundPos (x : ℝ) : ℝ :=
  ((⌊x * (2:ℝ)^((52:ℤ) - ⌊Real.logb 2 x⌋) + 1/2⌋ : ℤ) : ℝ) *
    (2:ℝ)^(⌊Real.logb 2 x⌋ - (52:ℤ))

/-- Round-to-nearest to binary64 precision, extended to all reals by sign
symmetry. -/
noncomputable def roundD (x : ℝ) : ℝ :=
  if 0 < x then roundPos x else if x < 0 then -(roundPos (-x)) else 0

/-- Rounding a value of `(0, 1)` overshoots it by at most half an ulp of 1. -/
lemma roundD_le {x : ℝ} (hx : 0 < x) (hx1 : x < 1) : roundD x ≤ x + 1/2^54 := by
  rw [roundD, if_pos hx, roundPos]
  have hlog : Real.logb 2 x < 0 := Real.logb_neg (by norm_num) hx hx1
  have heneg : ⌊Real.logb 2 x⌋ ≤ -1 := by
    have h0 : ⌊Real.logb 2 x⌋ < 0 := Int.floor_lt.mpr (by exact_mod_cast hlog)
    omega
  have hfl : ((⌊x * (2:ℝ)^((52:ℤ) - ⌊Real.logb 2 x⌋) + 1/2⌋ : ℤ) : ℝ) ≤
      x * (2:ℝ)^((52:ℤ) - ⌊Real.logb 2 x⌋) + 1/2 := Int.floor_le _
  have hpow : (0:ℝ) < (2:ℝ)^(⌊Real.logb 2 x⌋ - (52:ℤ)) := by positivity
  have hone : (2:ℝ)^((52:ℤ) - ⌊Real.logb 2 x⌋) * (2:ℝ)^(⌊Real.logb 2 x⌋ - (52:ℤ)) = 1 := by
    rw [← zpow_add₀ (by norm_num : (2:ℝ) ≠ 0)]
    norm_num
  have hhalf : (2:ℝ)^(⌊Real.logb 2 x⌋ - (52:ℤ)) * (1/2) = (2:ℝ)^(⌊Real.logb 2 x⌋ - (53:ℤ)) := by
    rw [show (⌊Real.logb 2 x⌋ - (53:ℤ)) = (⌊Real.logb 2 x⌋ - 52) + (-1) by ring,
      zpow_add₀ (by norm_num : (2:ℝ) ≠ 0)]
    norm_num
  have hsmall : (2:ℝ)^(⌊Real.logb 2 x⌋ - (53:ℤ)) ≤ (2:ℝ)^((-54):ℤ) :=
    zpow_le_zpow_right₀ (by norm_num) (by omega)
  have hval : (2:ℝ)^((-54):ℤ) = 1/2^54 := by norm_num
  calc ((⌊x * (2:ℝ)^((52:ℤ) - ⌊Real.logb 2 x⌋) + 1/2⌋ : ℤ) : ℝ) *
        (2:ℝ)^(⌊Real.logb 2 x⌋ - (52:ℤ))
      ≤ (x * (2:ℝ)^((52:ℤ) - ⌊Real.logb 2 x⌋) + 1/2) *
        (2:ℝ)^(⌊Real.logb 2 x⌋ - (52:ℤ)) := mul_le_mul_of_nonneg_right hfl hpow.le
    _ = x * ((2:ℝ)^((52:ℤ) - ⌊Real.logb 2 x⌋) * (2:ℝ)^(⌊Real.logb 2 x⌋ - (52:ℤ))) +
        (2:ℝ)^(⌊Real.logb 2 x⌋ - (52:ℤ)) * (1/2) := by ring
    _ = x + (2:ℝ)^(⌊Real.logb 2 x⌋ - (53:ℤ)) := by rw [hone, hhalf, mul_one]
    _ ≤ x + 1/2^54 := by rw [← hval]; linarith

/-- Values at least half an ulp below 1 stay strictly below 1 after
rounding. -/
lemma roundD_lt_one {x : ℝ} (hx : 0 < x) (hx2 : x ≤ 1 - 1/2^53) : roundD x < 1 := by
  have hx1 : x < 1 := by
    have : (0:ℝ) < 1/2^53 := by norm_num
    linarith
  have h := roundD_le hx hx1
  have : (1/2^54 : ℝ) < 1/2^53 := by norm_num
  linarith

/-- Values within half an ulp below 1 round to exactly 1. -/
lemma roundD_eq_one {x : ℝ} (h1 : 1 - 1/2^54 ≤ x) (h2 : x < 1) : roundD x = 1 := by
  have hx : 0 < x := by
    have : (0:ℝ) < 1 - 1/2^54 := by norm_num
    linarith
  rw [roundD, if_pos hx, roundPos]
  have hlog : Real.logb 2 x < 0 := Real.logb_neg (by norm_num) hx h2
  have hge : (-1:ℝ) ≤ Real.logb 2 x := by
    have hhalf : (1/2 : ℝ) ≤ x := by
      have : (1/2 : ℝ) ≤ 1 - 1/2^54 := by norm_num
      linarith
    have h3 : Real.logb 2 (1/2) ≤ Real.logb 2 x :=
      Real.logb_le_logb_of_le (by norm_num) (by norm_num) hhalf
    rw [show Real.logb 2 (1/2) = -1 by
      rw [show (1/2 : ℝ) = 2⁻¹ by norm_num, Real.logb_inv, Real.logb_self_eq_one] <;>
        norm_num] at h3
    exact h3
  have he : ⌊Real.logb 2 x⌋ = -1 := by
    rw [Int.floor_eq_iff]
    refine ⟨by exact_mod_cast hge, ?_⟩
    push_cast
    linarith
  rw [he]
  have hfl : ⌊x * (2:ℝ)^((52:ℤ) - (-1)) + 1/2⌋ = 2^53 := by
    rw [show ((52:ℤ) - (-1)) = 53 by norm_num,
      show ((2:ℝ)^((53:ℤ))) = 2^53 by norm_num, Int.floor_eq_iff]
    constructor
    · push_cast
      linarith
    · push_cast
      linarith
  rw [hfl, show ((-1:ℤ) - 52) = -53 by norm_num]
  push_cast
  norm_num

/-- `np.exp` with the finite case rounded to binary64. -/
noncomputable def fexp_d : FVal → FVal
  | FVal.finite x => FVal.finite (roundD (Real.exp x))
  | FVal.pinf => FVal.pinf
  | FVal.ninf => FVal.finite 0
  | FVal.nan => FVal.nan

/-- The raw formula line of `bose_einstein` with the exponential rounded to
binary64; the divisions on the paths proved about it are exact in binary64
(their operands are small powers of two), so they need no rounding step. -/
noncomputable def bose_einstein_raw_d (temp : FVal) : FVal :=
  fdiv (FVal.finite 1) (fsub (fexp_d (fdiv (FVal.finite OMEGA) temp)) (FVal.finite 1))

/-- Whole numpy `bose_einstein` in the rounded model: raw formula then
`np.nan_to_num(n, nan=0.0)`. -/
noncomputable def bose_einstein_np_d (temp : FVal) : FVal :=
  nan_to_num (bose_einstein_raw_d temp)

/-- The final `1.0 / d` followed by `nan_to_num` always yields a finite
value, whatever the finite denominator. -/
lemma final_div_total (d : ℝ) :
    ∃ x : ℝ, nan_to_num (fdiv (FVal.finite 1) (FVal.finite d)) = FVal.finite x := by
  by_cases hd : d = 0
  · exact ⟨MAXFLOAT,
      by rw [fdiv, if_pos hd, if_neg one_ne_zero, if_pos one_pos, nan_to_num]⟩
  · exact ⟨1/d, by rw [fdiv, if_neg hd, nan_to_num]⟩

/-- C9 (counterexample): at the strictly negative temperature `-2^60` the
code returns the POSITIVE value `+1.7976931348623157e308`. The quotient
`omega / (-2^60) = -2^(-60)` is exact in binary64; `np.exp` of it rounds to
exactly 1.0 (the true value lies within half an ulp below 1), so the source
computes `1/(1.0 - 1.0) = +inf`, which `nan_to_num` replaces by the largest
finite double — refuting strict negativity for every negative input. -/
theorem bose_einstein_positive_at_huge_negative_temp :
    bose_einstein_np_d (FVal.finite (-(2^60))) = FVal.finite MAXFLOAT ∧
    (0:ℝ) < MAXFLOAT ∧ (-(2^60) : ℝ) < 0 := by
  refine ⟨?_, by norm_num [MAXFLOAT], by norm_num⟩
  have ht : (-(2^60) : ℝ) ≠ 0 := by norm_num
  have hy : OMEGA / (-(2^60) : ℝ) = -(1/2^60) := by norm_num [OMEGA]
  have hx1 : 1 - 1/2^60 ≤ Real.exp (-(1/2^60)) := by
    have h := Real.add_one_le_exp (-(1/2^60) : ℝ)
    linarith
  have hx2 : Real.exp (-(1/2^60)) < 1 := Real.exp_lt_one_iff.mpr (by norm_num)
  have hround : roundD (Real.exp (-(1/2^60))) = 1 := by
    apply roundD_eq_one _ hx2
    have : (1/2^60 : ℝ) ≤ 1/2^54 := by norm_num
    linarith
  rw [bose_einstein_np_d, bose_einstein_raw_d, fdiv, if_neg ht, hy, fexp_d, hround, fsub,
    show (1:ℝ) - 1 = 0 by norm_num, fdiv, if_pos rfl, if_neg one_ne_zero,
    if_pos one_pos, nan_to_num]

/-- C9 (amended): the numpy `bose_einstein` is total — on every input
(finite, infinite or NaN) it returns a finite value, never NaN and never an
error — and on strictly negative finite temperatures of magnitude at most
`1e15` (where the binary64 exponential of `omega/T` still lies strictly
below 1) the returned value is strictly negative; for negative temperatures
of astronomically larger magnitude the exponential rounds to exactly 1.0
and the function instead returns the positive largest finite double, so the
strict-negativity guarantee does not extend to all negative inputs. -/
theorem bose_einstein_total_and_negative_in_range (T : ℝ)
    (hT1 : -1e15 ≤ T) (hT2 : T < 0) :
    (∀ v : FVal, ∃ x : ℝ, bose_einstein_np_d v = FVal.finite x) ∧
    (∃ x : ℝ, x < 0 ∧ bose_einstein_np_d (FVal.finite T) = FVal.finite x) := by
  constructor
  · intro v
    cases v with
    | finite t =>
        by_cases ht : t = 0
        · refine ⟨0, ?_⟩
          rw [bose_einstein_np_d, bose_einstein_raw_d, fdiv, if_pos ht,
            if_neg (by norm_num [OMEGA]), if_pos (by norm_num [OMEGA]),
            fexp_d, fsub, fdiv, nan_to_num]
        · obtain ⟨x, hx⟩ := final_div_total (roundD (Real.exp (OMEGA / t)) - 1)
          refine ⟨x, ?_⟩
          rw [bose_einstein_np_d, bose_einstein_raw_d, fdiv, if_neg ht, fexp_d, fsub]
          exact hx
    | pinf =>
        obtain ⟨x, hx⟩ := final_div_total (roundD (Real.exp 0) - 1)
        refine ⟨x, ?_⟩
        rw [bose_einstein_np_d, bose_einstein_raw_d,
          show fdiv (FVal.finite OMEGA) FVal.pinf = FVal.finite 0 from rfl,
          show fexp_d (FVal.finite 0) = FVal.finite (roundD (Real.exp 0)) from rfl, fsub]
        exact hx
    | ninf =>
        obtain ⟨x, hx⟩ := final_div_total (roundD (Real.exp 0) - 1)
        refine ⟨x, ?_⟩
        rw [bose_einstein_np_d, bose_einstein_raw_d,
          show fdiv (FVal.finite OMEGA) FVal.ninf = FVal.finite 0 from rfl,
          show fexp_d (FVal.finite 0) = FVal.finite (roundD (Real.exp 0)) from rfl, fsub]
        exact hx
    | nan => exact ⟨0, rfl⟩
  · have ht : T ≠ 0 := ne_of_lt hT2
    have homega : OMEGA = 1 := by norm_num [OMEGA]
    have hinv : OMEGA / T ≤ -(1e-15) := by
      rw [div_le_iff_of_neg hT2, homega]
      nlinarith
    have hexp_le : Real.exp (OMEGA / T) ≤ 1 - 1/2^53 := by
      have h1 : Real.exp (OMEGA / T) ≤ Real.exp (-(1e-15)) := Real.exp_le_exp.mpr hinv
      have h2 : Real.exp (-(1e-15)) ≤ 1 / (1 + 1e-15) := by
        have h3 := Real.add_one_le_exp (1e-15 : ℝ)
        rw [Real.exp_neg, inv_eq_one_div]
        exact one_div_le_one_div_of_le (by norm_num) (by linarith)
      have h4 : (1 : ℝ) / (1 + 1e-15) ≤ 1 - 1/2^53 := by
        rw [div_le_iff₀ (by norm_num : (0:ℝ) < 1 + 1e-15)]
        norm_num
      linarith
    have hround : roundD (Real.exp (OMEGA / T)) < 1 :=
      roundD_lt_one (Real.exp_pos _) hexp_le
    have hd_neg : roundD (Real.exp (OMEGA / T)) - 1 < 0 := by linarith
    refine ⟨1 / (roundD (Real.exp (OMEGA / T)) - 1), one_div_neg.mpr hd_neg, ?_⟩
    rw [bose_einstein_np_d, bose_einstein_raw_d, fdiv, if_neg ht, fexp_d, fsub, fdiv,
      if_neg (ne_of_lt hd_neg), nan_to_num]

/-- Witness for C9 at the concrete temperature -1. -/
theorem bose_einstein_total_and_negative_in_range_witness :
    (∀ v : FVal, ∃ x : ℝ, bose_einstein_np_d v = FVal.finite x) ∧
    (∃ x : ℝ, x < 0 ∧ bose_einstein_np_d (FVal.finite (-1)) = FVal.finite x) :=
  bose_einstein_total_and_negative_in_range (-1) (by norm_num) (by norm_num)

/-! ### Monotonicity and limit of the occupation number -/

lemma bose_einstein_strict_mono {T1 T2 : ℝ} (h1 : 0 < T1) (h12 : T1 < T2) :
    bose_einstein T1 < bose_einstein T2 := by
  have h2 : 0 < T2 := lt_trans h1 h12
  rw [bose_einstein_of_pos h1, bose_einstein_of_pos h2]
  have hdiv : OMEGA / T2 < OMEGA / T1 := by
    apply div_lt_div_of_pos_left _ h1 h12
    norm_num [OMEGA]
  have hexp : Real.exp (OMEGA / T2) < Real.exp (OMEGA / T1) :=
    Real.exp_lt_exp.mpr hdiv
  have hgt1 : 1 < Real.exp (OMEGA / T2) := by
    rw [show (1 : ℝ) = Real.exp 0 from (Real.exp_zero).symm]
    apply Real.exp_lt_exp.mpr
    apply div_pos _ h2
    norm_num [OMEGA]
  exact one_div_lt_one_div_of_lt (by linarith) (by linarith)

/-- C5 (counterexample): the occupation number is NOT decreasing in
temperature — at the concrete temperatures 1 and 2 the code gives
`bose_einstein 1 = 1/(e - 1) < 1/(e^(1/2) - 1) = bose_einstein 2`. -/
theorem bose_einstein_not_decreasing :
    bose_einstein 1 < bose_einstein 2 :=
  bose_einstein_strict_mono (by norm_num) (by norm_num)

/-- C5 (amended): for every temperature `T > 0`, `bose_einstein T` is
(finite and) strictly positive; the occupation is strictly INCREASING in
temperature, and it approaches 0 in the limit as temperature decreases
to 0 (not as temperature grows to infinity). -/
theorem bose_einstein_pos_increasing_limit (T1 T2 : ℝ) (h1 : 0 < T1) (h12 : T1 < T2) :
    0 < bose_einstein T1 ∧
    bose_einstein T1 < bose_einstein T2 ∧
    Filter.Tendsto (fun T => bose_einstein T) (nhdsWithin 0 (Set.Ioi 0)) (nhds 0) := by
  refine ⟨bose_einstein_pos h1 (by norm_num [OMEGA]), bose_einstein_strict_mono h1 h12, ?_⟩
  have key : Filter.Tendsto (fun T : ℝ => (Real.exp (OMEGA / T) - 1)⁻¹)
      (nhdsWithin 0 (Set.Ioi 0)) (nhds 0) := by
    apply Filter.Tendsto.comp tendsto_inv_atTop_zero
    apply Filter.tendsto_atTop_add_const_right _ (-1)
    apply Filter.Tendsto.comp Real.tendsto_exp_atTop
    exact tendsto_inv_zero_atTop.congr (fun T => by norm_num [OMEGA, one_div])
  apply key.congr'
  apply Filter.eventuallyEq_of_mem self_mem_nhdsWithin
  intro T hT
  show (Real.exp (OMEGA / T) - 1)⁻¹ = bose_einstein T
  rw [bose_einstein_of_pos (Set.mem_Ioi.mp hT), one_div]

/-- Witness for C5 at the concrete temperatures 1 and 2. -/
theorem bose_einstein_pos_increasing_limit_witness :
    0 < bose_einstein 1 ∧
    bose_einstein 1 < bose_einstein 2 ∧
    Filter.Tendsto (fun T => bose_einstein T) (nhdsWithin 0 (Set.Ioi 0)) (nhds 0) :=
  bose_einstein_pos_increasing_limit 1 2 (by norm_num) (by norm_num)

/-! ### Grid construction (`run_simulation` in `main.py`) -/

/-- `np.linspace(lo, hi, num)`: `num` uniformly spaced samples
`lo + (hi - lo) * i / (num - 1)` for `i = 0, ..., num - 1`. -/
noncomputable def linspace (lo hi : ℝ) (num : ℕ) : List ℝ :=
  (List.range num).map (fun (i : ℕ) => lo + (hi - lo) * (i : ℝ) / (↑(num - 1) : ℝ))

/-- `np.meshgrid(xs, ys)`: the first component repeats `xs` as each row, the
second repeats each `y` across a row of length `xs.length`; both have
`ys.length` rows. -/
def meshgrid (xs ys : List ℝ) : List (List ℝ) × List (List ℝ) :=
  (ys.map (fun _ => xs), ys.map (fun y => xs.map (fun _ => y)))

/-- `T_vals = np.linspace(TEMP_MIN, 5.0, GRID_RESOLUTION)` — note the upper
bound is the literal `5.0` in the source, not `TEMP_MAX`. -/
noncomputable def T_vals : List ℝ := linspace TEMP_MIN 5.0 GRID_RESOLUTION

/-- `r_vals = np.linspace(0, SQUEEZING_MAX, GRID_RESOLUTION)`. -/
noncomputable def r_vals : List ℝ := linspace 0 SQUEEZING_MAX GRID_RESOLUTION

/-- `T_grid` from `np.meshgrid(T_vals, r_vals)`. -/
noncomputable def T_grid : List (List ℝ) := (meshgrid T_vals r_vals).1

/-- `r_grid` from `np.meshgrid(T_vals, r_vals)`. -/
noncomputable def r_grid : List (List ℝ) := (meshgrid T_vals r_vals).2

/-- `n_bar_grid = bose_einstein(T_grid)`, element-wise. -/
noncomputable def n_bar_grid : List (List ℝ) :=
  T_grid.map (fun row => row.map (fun t => bose_einstein t))

/-- `E_N = log_negativity(r_grid, n_bar_grid)`, element-wise. -/
noncomputable def E_N : List (List ℝ) :=
  List.zipWith (fun rrow nrow => List.zipWith log_negativity rrow nrow) r_grid n_bar_grid

/-- `n_bar_line = bose_einstein(T_vals)`, element-wise. -/
noncomputable def n_bar_line : List ℝ := T_vals.map (fun t => bose_einstein t)

/-- `r_crit_line = critical_squeezing(n_bar_line)`, element-wise. -/
noncomputable def r_crit_line : List ℝ := n_bar_line.map critical_squeezing

lemma linspace_length (lo hi : ℝ) (num : ℕ) : (linspace lo hi num).length = num := by
  rw [linspace, List.length_map, List.length_range]

lemma linspace_getElem? (lo hi : ℝ) (num i : ℕ) (h : i < num) :
    (linspace lo hi num)[i]? = some (lo + (hi - lo) * (i : ℝ) / (↑(num - 1) : ℝ)) := by
  rw [linspace, List.getElem?_map, List.getElem?_range h]
  rfl

lemma T_grid_eq : T_grid = r_vals.map (fun _ => T_vals) := by
  rw [T_grid, meshgrid]

lemma r_grid_eq : r_grid = r_vals.map (fun y => T_vals.map (fun _ => y)) := by
  rw [r_grid, meshgrid]

lemma T_vals_length : T_vals.length = GRID_RESOLUTION := by
  rw [T_vals, linspace_length]

lemma r_vals_length : r_vals.length = GRID_RESOLUTION := by
  rw [r_vals, linspace_length]

/-- C6 (counterexample): the temperature sample sequence does not end at the
configured maximum temperature: its last sample (index 499) is the
hard-coded literal 5.0, while `TEMP_MAX = 3.0`. -/
theorem temperature_axis_ends_beyond_max :
    T_vals[499]? = some 5 ∧ (5 : ℝ) ≠ TEMP_MAX := by
  constructor
  · rw [T_vals, GRID_RESOLUTION, linspace_getElem? _ _ _ _ (by norm_num)]
    norm_num [TEMP_MIN]
  · norm_num [TEMP_MAX]

/-- C6 (amended): with per-axis resolution `N = GRID_RESOLUTION`, the
temperature samples run uniformly from `TEMP_MIN` to the hard-coded 5.0
(not the configured `TEMP_MAX`), the squeezing samples run uniformly from 0
to `SQUEEZING_MAX`, each axis has `N` samples, both mesh arrays have `N`
rows of `N` elements (`N * N` elements in total), and the threshold curve
has exactly `N` elements, matching the temperature sample count. -/
theorem grid_shapes (i : ℕ) (hi : i + 1 < GRID_RESOLUTION) :
    T_vals.length = GRID_RESOLUTION ∧
    r_vals.length = GRID_RESOLUTION ∧
    T_grid.length = GRID_RESOLUTION ∧
    (∀ row ∈ T_grid, row.length = GRID_RESOLUTION) ∧
    r_grid.length = GRID_RESOLUTION ∧
    (∀ row ∈ r_grid, row.length = GRID_RESOLUTION) ∧
    r_crit_line.length = T_vals.length ∧
    T_vals[0]? = some TEMP_MIN ∧
    T_vals[499]? = some 5 ∧
    r_vals[0]? = some 0 ∧
    r_vals[499]? = some SQUEEZING_MAX ∧
    (∀ x y : ℝ, T_vals[i]? = some x → T_vals[i + 1]? = some y →
      y - x = (5 - TEMP_MIN) / 499) ∧
    (∀ x y : ℝ, r_vals[i]? = some x → r_vals[i + 1]? = some y →
      y - x = (SQUEEZING_MAX - 0) / 499) := by
  have hN : GRID_RESOLUTION = 500 := rfl
  refine ⟨T_vals_length, r_vals_length, ?_, ?_, ?_, ?_, ?_, ?_, ?_, ?_, ?_, ?_, ?_⟩
  · rw [T_grid_eq, List.length_map, r_vals_length]
  · intro row hrow
    rw [T_grid_eq, List.mem_map] at hrow
    obtain ⟨y, hy, hrow⟩ := hrow
    rw [← hrow, T_vals_length]
  · rw [r_grid_eq, List.length_map, r_vals_length]
  · intro row hrow
    rw [r_grid_eq, List.mem_map] at hrow
    obtain ⟨y, hy, hrow⟩ := hrow
    rw [← hrow, List.length_map, T_vals_length]
  · rw [r_crit_line, List.length_map, n_bar_line, List.length_map]
  · rw [T_vals, GRID_RESOLUTION, linspace_getElem? _ _ _ _ (by norm_num)]
    norm_num
  · rw [T_vals, GRID_RESOLUTION, linspace_getElem? _ _ _ _ (by norm_num)]
    norm_num [TEMP_MIN]
  · rw [r_vals, GRID_RESOLUTION, linspace_getElem? _ _ _ _ (by norm_num)]
    norm_num
  · rw [r_vals, GRID_RESOLUTION, linspace_getElem? _ _ _ _ (by norm_num)]
    norm_num [SQUEEZING_MAX]
  · intro x y hx hy
    rw [hN] at hi
    rw [T_vals, GRID_RESOLUTION, linspace_getElem? _ _ _ _ (Nat.lt_of_succ_lt hi)] at hx
    rw [T_vals, GRID_RESOLUTION, linspace_getElem? _ _ _ _ hi] at hy
    rw [Option.some_inj] at hx hy
    rw [← hx, ← hy]
    rw [show (500 - 1 : ℕ) = 499 by norm_num]
    push_cast
    ring
  · intro x y hx hy
    rw [hN] at hi
    rw [r_vals, GRID_RESOLUTION, linspace_getElem? _ _ _ _ (Nat.lt_of_succ_lt hi)] at hx
    rw [r_vals, GRID_RESOLUTION, linspace_getElem? _ _ _ _ hi] at hy
    rw [Option.some_inj] at hx hy
    rw [← hx, ← hy]
    rw [show (500 - 1 : ℕ) = 499 by norm_num]
    push_cast
    ring

/-- Witness for C6 at the concrete index `i = 0`. -/
theorem grid_shapes_witness :
    T_vals.length = GRID_RESOLUTION ∧
    r_vals.length = GRID_RESOLUTION ∧
    T_grid.length = GRID_RESOLUTION ∧
    (∀ row ∈ T_grid, row.length = GRID_RESOLUTION) ∧
    r_grid.length = GRID_RESOLUTION ∧
    (∀ row ∈ r_grid, row.length = GRID_RESOLUTION) ∧
    r_crit_line.length = T_vals.length ∧
    T_vals[0]? = some TEMP_MIN ∧
    T_vals[499]? = some 5 ∧
    r_vals[0]? = some 0 ∧
    r_vals[499]? = some SQUEEZING_MAX ∧
    (∀ x y : ℝ, T_vals[0]? = some x → T_vals[0 + 1]? = some y →
      y - x = (5 - TEMP_MIN) / 499) ∧
    (∀ x y : ℝ, r_vals[0]? = some x → r_vals[0 + 1]? = some y →
      y - x = (SQUEEZING_MAX - 0) / 499) :=
  grid_shapes 0 (by norm_num [GRID_RESOLUTION])

/-- C10: the squeezing sample sequence begins at exactly 0 (for every
resolution, and in particular for the configured run), and on that `r = 0`
boundary row the raw (pre-floor) log-negativity is strictly negative for
every temperature `T > 0` while the rendered entanglement value is
exactly 0. -/
theorem squeezing_axis_zero_row (T : ℝ) (hT : 0 < T) :
    (∀ num : ℕ, 0 < num → (linspace 0 SQUEEZING_MAX num)[0]? = some 0) ∧
    r_vals[0]? = some 0 ∧
    log_negativity_val 0 (bose_einstein T) < 0 ∧
    log_negativity 0 (bose_einstein T) = 0 := by
  have hw : (0 : ℝ) < OMEGA := by norm_num [OMEGA]
  have hnpos : 0 < bose_einstein T := bose_einstein_pos hT hw
  have hn : 0 < 2 * bose_einstein T + 1 := by linarith
  refine ⟨?_, ?_, ?_, ?_⟩
  · intro num hnum
    rw [linspace_getElem? _ _ _ _ hnum]
    norm_num
  · rw [r_vals, GRID_RESOLUTION, linspace_getElem? _ _ _ _ (by norm_num)]
    norm_num
  · rw [log_negativity_val_eq hn 0]
    apply div_neg_of_neg_of_pos _ log_two_pos
    have : 0 < Real.log (2 * bose_einstein T + 1) := Real.log_pos (by linarith)
    linarith
  · apply (log_negativity_eq_zero_iff hn 0).mpr
    rw [critical_squeezing]
    have : 0 ≤ Real.log (2 * bose_einstein T + 1) := Real.log_nonneg (by linarith)
    linarith

/-- Witness for C10 at the concrete temperature 1. -/
theorem squeezing_axis_zero_row_witness :
    (∀ num : ℕ, 0 < num → (linspace 0 SQUEEZING_MAX num)[0]? = some 0) ∧
    r_vals[0]? = some 0 ∧
    log_negativity_val 0 (bose_einstein 1) < 0 ∧
    log_negativity 0 (bose_einstein 1) = 0 :=
  squeezing_axis_zero_row 1 (by norm_num)

/-! ### Concrete value scenarios -/

/-- C7: the concrete scenarios of §8 of the spec. At frequency 1 and
temperature 1 the occupation is exactly `1/(e - 1)` and lies within `1e-4`
of 0.58198; the threshold of that occupation lies within `5e-3` of 0.3847
(its exact value is `0.5 * ln((e + 1)/(e - 1)) = 0.38597...`); and at
occupation 0 and squeezing 1 the log-negativity is `2 / ln 2 = 2.88539...`,
within `5e-3` of the quoted 2.887 and strictly positive. -/
theorem concrete_scenarios :
    bose_einstein 1 = 1 / (Real.exp 1 - 1) ∧
    |bose_einstein 1 - 0.58198| < 0.0001 ∧
    |critical_squeezing (bose_einstein 1) - 0.3847| < 0.005 ∧
    |log_negativity 1 0 - 2.887| < 0.005 ∧
    0 < log_negativity 1 0 := by
  have hx : bose_einstein 1 = 1 / (Real.exp 1 - 1) := by
    rw [bose_einstein_of_pos one_pos]
    norm_num [OMEGA]
  have hepos : (0 : ℝ) < Real.exp 1 - 1 := by nlinarith [Real.exp_one_gt_d9]
  have hb1 : (0.5819 : ℝ) < 1 / (Real.exp 1 - 1) := by
    rw [lt_div_iff₀ hepos]
    nlinarith [Real.exp_one_lt_d9]
  have hb2 : 1 / (Real.exp 1 - 1) < 0.5820 := by
    rw [div_lt_iff₀ hepos]
    nlinarith [Real.exp_one_gt_d9]
  have hval : log_negativity_val 1 0 = 2 / Real.log 2 := by
    rw [log_negativity_val_eq (by norm_num) 1]
    norm_num
  have hEN : log_negativity 1 0 = 2 / Real.log 2 := by
    rw [log_negativity, hval]
    exact max_eq_right (le_of_lt (div_pos two_pos log_two_pos))
  refine ⟨hx, ?_, ?_, ?_, ?_⟩
  · rw [hx, abs_lt]
    constructor <;> linarith
  · rw [critical_squeezing, hx]
    have hapos : (0 : ℝ) < 2 * (1 / (Real.exp 1 - 1)) + 1 := by linarith
    have hhalf : (0 : ℝ) < (2 * (1 / (Real.exp 1 - 1)) + 1) / 2 := by linarith
    have hsplit : Real.log (2 * (1 / (Real.exp 1 - 1)) + 1) =
        Real.log 2 + Real.log ((2 * (1 / (Real.exp 1 - 1)) + 1) / 2) := by
      rw [← Real.log_mul (by norm_num) (ne_of_gt hhalf)]
      congr 1
      ring
    have hup : Real.log ((2 * (1 / (Real.exp 1 - 1)) + 1) / 2) ≤
        (2 * (1 / (Real.exp 1 - 1)) + 1) / 2 - 1 :=
      Real.log_le_sub_one_of_pos hhalf
    have hlo : 1 - 2 / (2 * (1 / (Real.exp 1 - 1)) + 1) ≤
        Real.log ((2 * (1 / (Real.exp 1 - 1)) + 1) / 2) := by
      have h2 : Real.log ((2 * (1 / (Real.exp 1 - 1)) + 1) / 2)⁻¹ ≤
          ((2 * (1 / (Real.exp 1 - 1)) + 1) / 2)⁻¹ - 1 :=
        Real.log_le_sub_one_of_pos (by positivity)
      rw [Real.log_inv, inv_div] at h2
      linarith
    have hdivbound : 2 / (2 * (1 / (Real.exp 1 - 1)) + 1) < 0.9245 := by
      rw [div_lt_iff₀ hapos]
      linarith
    rw [abs_lt]
    have hl2a := Real.log_two_gt_d9
    have hl2b := Real.log_two_lt_d9
    constructor <;> linarith
  · rw [hEN, abs_lt]
    have hc1 : (2.8853 : ℝ) < 2 / Real.log 2 := by
      rw [lt_div_iff₀ log_two_pos]
      nlinarith [Real.log_two_lt_d9]
    have hc2 : 2 / Real.log 2 < 2.8854 := by
      rw [div_lt_iff₀ log_two_pos]
      nlinarith [Real.log_two_gt_d9]
    constructor <;> linarith
  · rw [hEN]
    exact div_pos two_pos log_two_pos

end TMST
